import Mathlib

/-!
Verification of the codequality change-resolution and dispatch pipeline.

The definitions below are a shallow embedding of the Python sources
`codequality/scmhandlers.py`, `codequality/checkers.py` and
`codequality/main.py`.  External collaborators (the git binary, the
filesystem, the external lint tools, `fnmatch`) are modelled as oracles
packaged in `GitState` and `Env`; every subprocess call and every file
operation performed by the embedded code is recorded as an `Event` so
that theorems can speak about the I/O behaviour of a run.
-/

namespace Codequality

/-! ### Python string primitives used by the sources -/

/-- Whitespace characters recognised by Python `str.strip()`. -/
def pyIsSpace (c : Char) : Bool :=
  c == ' ' || c == '\t' || c == '\n' || c == '\r' || c == '\x0b' || c == '\x0c'

/-- Python `str.strip()`: remove leading and trailing whitespace. -/
def pyStrip (s : String) : String :=
  String.mk (((s.data.dropWhile pyIsSpace).reverse.dropWhile pyIsSpace).reverse)

/-- Helper for `pySplitlines`: accumulate the current line (reversed). -/
def pySplitlinesAux : List Char → List Char → List String
  | [], acc => if acc.isEmpty then [] else [String.mk acc.reverse]
  | '\r' :: '\n' :: rest, acc => String.mk acc.reverse :: pySplitlinesAux rest []
  | '\r' :: rest, acc => String.mk acc.reverse :: pySplitlinesAux rest []
  | '\n' :: rest, acc => String.mk acc.reverse :: pySplitlinesAux rest []
  | c :: rest, acc => pySplitlinesAux rest (c :: acc)

/-- Python `str.splitlines()` (no terminator kept, no trailing empty line). -/
def pySplitlines (s : String) : List String :=
  pySplitlinesAux s.data []

/-- Python truthiness of an optional string: `None` and `''` are falsy. -/
def pyTruthy : Option String → Bool
  | none => false
  | some s => s ≠ ""

/-- Python `'%s' % x` rendering of an optional string (`None` prints as "None"). -/
def pyOptStr : Option String → String
  | none => "None"
  | some s => s

/-- Python `os.path.join` for two components. -/
def pyPathJoin (a b : String) : String :=
  if b.data.headD ' ' == '/' then b
  else if a == "" then b
  else if a.data.getLast? == some '/' then a ++ b
  else a ++ "/" ++ b

/-- Byte-wise lexicographic comparison of character lists, as Python 2
compares byte strings. -/
def charListLe : List Char → List Char → Bool
  | [], _ => true
  | _ :: _, [] => false
  | a :: as, b :: bs =>
      if a.toNat = b.toNat then charListLe as bs
      else decide (a.toNat < b.toNat)

/-- Python `a <= b` on strings. -/
def strLe (a b : String) : Bool := charListLe a.data b.data

/-- One insertion step of a stable insertion sort under `strLe`. -/
def orderedInsertStr (x : String) : List String → List String
  | [] => [x]
  | y :: ys => if strLe x y then x :: y :: ys else y :: orderedInsertStr x ys

/-- Python `sorted` on strings (byte-wise lexicographic order; a stable
sort, which for plain strings is determined by the comparison alone). -/
def pySorted (l : List String) : List String :=
  l.foldr orderedInsertStr []

/-- Digit-string accumulator for `pyInt?`. -/
def pyDigitsToNat : List Char → Nat → Nat
  | [], acc => acc
  | c :: rest, acc => pyDigitsToNat rest (acc * 10 + (c.toNat - '0'.toNat))

/-- Python `int(s)` on a candidate digit string: `int('')` and non-digit
strings raise `ValueError` (modelled as `none`). -/
def pyInt? (cs : List Char) : Option Nat :=
  if cs.isEmpty then none
  else if cs.all Char.isDigit then some (pyDigitsToNat cs 0) else none

/-- Python `int(out.split(' ')[0])`: the first space-separated token
(`''.split(' ')` is `['']`, so the token always exists). -/
def pyIntFirstToken (out : String) : Option Nat :=
  pyInt? (out.data.takeWhile (fun c => c != ' '))

/-! ### The git oracle, events, and the exception type -/

/-- The git subcommands issued by `GitHandler` (via `_git_cmd`). -/
inductive GitCmd
  | revParse (ref : String)
  | showPrefixCmd
  | diffNameOnly (range : String)
  | diffSummary (range : String)
  | lsFiles
  | lsTree (rev : String) (path : String)
  | showFile (rev : String) (path : String)
deriving DecidableEq

/-- Rendering of a `GitCmd` as the string passed to `git` by the source. -/
def gitCmdStr : GitCmd → String
  | GitCmd.revParse ref => "rev-parse " ++ ref
  | GitCmd.showPrefixCmd => "rev-parse --show-prefix"
  | GitCmd.diffNameOnly range => "diff --name-only " ++ range ++ " -- ."
  | GitCmd.diffSummary range => "diff --summary " ++ range
  | GitCmd.lsFiles => "ls-files"
  | GitCmd.lsTree rev path => "ls-tree \"" ++ rev ++ "\" \"" ++ path ++ "\""
  | GitCmd.showFile rev path => "show " ++ rev ++ ":\"" ++ path ++ "\""

/-- Observable side effects of the scm handler: subprocess calls, file
reads, and temporary-file creation. -/
inductive Event
  | git (cmd : GitCmd)
  | openRead (path : String)
  | writeTemp (name : String) (contents : String)
deriving DecidableEq

/-- The Python exceptions the embedded code can raise.  `GitError` and
`CommandError` are the repository's own classes; the rest are builtins. -/
inductive PyErr
  | gitError (msg : String)
  | valueError (msg : String)
  | typeError
  | keyError (key : String)
  | osError
  | commandError (msg : String)
deriving DecidableEq

deriving instance DecidableEq for Except

/-- Oracle for the environment the git handler talks to: the outcome of
each git command (`Except.error` = nonzero exit status, carrying the
combined output) and the contents of working-tree files. -/
structure GitState where
  cmdOut : GitCmd → Except String String
  readFile : String → String

/-- A computation of the scm handler: the events it performs together
with its result or the exception it raises. -/
structure GitRes (α : Type) where
  events : List Event
  result : Except PyErr α

instance : Monad GitRes where
  pure a := ⟨[], Except.ok a⟩
  bind x f :=
    match x.result with
    | Except.error e => ⟨x.events, Except.error e⟩
    | Except.ok a => ⟨x.events ++ (f a).events, (f a).result⟩

/-- Raise an exception (no event). -/
def gfail {α : Type} (e : PyErr) : GitRes α := ⟨[], Except.error e⟩

/-- `GitHandler._git_cmd`: run a git subcommand, raising `GitError` on a
nonzero exit status. -/
def gitCmd (g : GitState) (c : GitCmd) : GitRes String :=
  ⟨[Event.git c],
    match g.cmdOut c with
    | Except.error out =>
        Except.error (PyErr.gitError ("\"" ++ gitCmdStr c ++ "\" failed:\n" ++ out))
    | Except.ok out => Except.ok out⟩

/-- `GIT_COMMIT_RE.match`: the output starts with 40 lowercase hex digits. -/
def gitCommitMatch (s : String) : Bool :=
  (s.data.take 40).length == 40 &&
    (s.data.take 40).all (fun c =>
      ('0' ≤ c && c ≤ '9') || ('a' ≤ c && c ≤ 'f'))

/-- `GitHandler._resolve_rev`. -/
def resolveRev (g : GitState) (rev : Option String) : GitRes (Option String) :=
  if pyTruthy rev then do
    let result ← gitCmd g (GitCmd.revParse (pyOptStr rev))
    if gitCommitMatch result then
      pure (some result)
    else
      gfail (PyErr.gitError ("\"" ++ result ++ "\" does not appear to be a commit."))
  else
    pure none

/-- The `commit_range` expression of `GitHandler.srcs_to_check`. -/
def commitRange (rev : Option String) : String :=
  if pyTruthy rev then pyOptStr rev ++ "^ " ++ pyOptStr rev else "HEAD"

/-- `GitHandler._path_from_repo_root`. -/
def pathFromRepoRoot (g : GitState) (path : String) : GitRes String := do
  let pre ← gitCmd g GitCmd.showPrefixCmd
  pure (pyPathJoin pre path)

/-- `GitHandler._file_contents`: working-tree read when the resolved rev
is absent, `git show` plus a re-appended newline otherwise. -/
def fileContents (g : GitState) (path : String) (rev : Option String) : GitRes String := do
  let rev ← resolveRev g rev
  match rev with
  | none => ⟨[Event.openRead path], Except.ok (g.readFile path)⟩
  | some r => do
      let full ← pathFromRepoRoot g path
      let result ← gitCmd g (GitCmd.showFile r full)
      pure (if result ≠ "" then result ++ "\n" else result)

/-- The filtering list comprehension at the end of
`GitHandler._paths_to_check`: `git ls-files` is re-run for every element. -/
def lsFilesFilter (g : GitState) : List String → GitRes (List String)
  | [] => pure []
  | p :: rest => do
      let ls ← gitCmd g GitCmd.lsFiles
      let tail ← lsFilesFilter g rest
      pure (if (pySplitlines ls).contains p then p :: tail else tail)

/-- `path[len(prefix):]`. -/
def stripPrefixLen (pre s : String) : String :=
  String.mk (s.data.drop pre.data.length)

/-- `GitHandler._paths_to_check`. -/
def pathsToCheck (g : GitState) (paths : List String) (range : String) :
    GitRes (List String) :=
  (if paths.isEmpty then do
      let out ← gitCmd g (GitCmd.diffNameOnly range)
      let pre ← gitCmd g GitCmd.showPrefixCmd
      pure ((pySplitlines out).map (stripPrefixLen pre))
    else pure paths) >>= lsFilesFilter g

/-- ASCII word character, as matched by `\w` in the source's regexes. -/
def isWordChar (c : Char) : Bool := c.isAlpha || c.isDigit || c == '_'

/-- Expect a literal character sequence at the head of the input. -/
def dropLit : List Char → List Char → Option (List Char)
  | [], cs => some cs
  | _ :: _, [] => none
  | l :: ls, c :: cs => if c == l then dropLit ls cs else none

/-- `GIT_DIFF_SUMMARY_RE.match`: parse
`" <type> mode <mode> <path>"`, returning (type, mode, path). -/
def summaryMatch (line : String) : Option (String × String × String) :=
  match line.data with
  | ' ' :: rest =>
      let typ := rest.takeWhile isWordChar
      if typ.isEmpty then none
      else
        match dropLit " mode ".data (rest.drop typ.length) with
        | none => none
        | some r2 =>
            let md := r2.takeWhile isWordChar
            if md.isEmpty then none
            else
              match r2.drop md.length with
              | ' ' :: r4 =>
                  if r4.isEmpty then none
                  else some (String.mk typ, String.mk md, String.mk r4)
              | _ => none
  | _ => none

/-- Assoc-list lookup (Python `dict.get`). -/
def assocGet? {α : Type} : List (String × α) → String → Option α
  | [], _ => none
  | (k, v) :: rest, key => if k == key then some v else assocGet? rest key

/-- Assoc-list store (Python `d[k] = v`): overwrite in place, append new
keys at the end. -/
def assocSet {α : Type} : List (String × α) → String → α → List (String × α)
  | [], key, v => [(key, v)]
  | (k, v0) :: rest, key, v =>
      if k == key then (k, v) :: rest else (k, v0) :: assocSet rest key v

/-- Keys of an assoc list, in insertion order.  Note that CPython 2's
`dict.keys()` returns keys in unspecified hash-table order, not this
order: statements that depend on iteration order must therefore thread
an explicit order oracle (see `runCheckersOrd`), while order-insensitive
statements may use this insertion-ordered view directly. -/
def assocKeys {α : Type} (d : List (String × α)) : List String :=
  d.map Prod.fst

/-- `GitHandler._get_path_types`. -/
def getPathTypes (g : GitState) (range : String) : GitRes (List (String × String)) := do
  let out ← gitCmd g (GitCmd.diffSummary range)
  (pySplitlines out).foldlM
    (fun m line =>
      match summaryMatch line with
      | none =>
          gfail (PyErr.gitError
            ("unexpected `git diff --summary` output: \"" ++ line ++ "\""))
      | some tmp => pure (assocSet m tmp.2.2 tmp.1))
    []

/-- `GitHandler._mode`: note that the rev is interpolated with `'%s'`, so
a `None` rev is passed to git as the literal string "None". -/
def gitMode (g : GitState) (path : String) (rev : Option String) : GitRes Nat := do
  let out ← gitCmd g (GitCmd.lsTree (pyOptStr rev) path)
  match pyIntFirstToken out with
  | none => gfail (PyErr.valueError ("invalid literal for int(): " ++ out))
  | some n => pure n

/-- Names produced by `_temp_filename` (a fresh `NamedTemporaryFile` with
the `codequalitytmp` prefix), indexed by creation order. -/
def tempFileName (k : Nat) : String :=
  "/tmp/codequalitytmp" ++ toString k

/-- `GitHandler._srcs`: the per-path loop, threading the temp-file
counter.  Submodule paths are skipped before the change-type dispatch. -/
def srcsAux (g : GitState) (types : List (String × String)) (rev : Option String) :
    List String → Nat → GitRes (List (String × String))
  | [], _ => pure []
  | path :: rest, ctr => do
      let m ← gitMode g path rev
      if m == 160000 then
        srcsAux g types rev rest ctr
      else
        let t := assocGet? types path
        if t = none ∨ t = some "create" ∨ t = some "rename" then do
          let contents ← fileContents g path rev
          let name := tempFileName ctr
          let _ ← (⟨[Event.writeTemp name contents], Except.ok ()⟩ : GitRes Unit)
          let tail ← srcsAux g types rev rest (ctr + 1)
          pure ((path, name) :: tail)
        else if t = some "delete" then
          srcsAux g types rev rest ctr
        else
          gfail (PyErr.valueError ("Unexpected change type: " ++ pyOptStr t))

/-- `GitHandler.srcs_to_check`. -/
def gitSrcsToCheck (g : GitState) (paths : List String) (rev : Option String) :
    GitRes (List (String × String)) := do
  let rev ← resolveRev g rev
  let range := commitRange rev
  let paths ← pathsToCheck g paths range
  let types ← getPathTypes g range
  srcsAux g types rev paths 0

/-- `NoSCMHandler.srcs_to_check`: every path, sorted, checked in place. -/
def noScmSrcsToCheck (paths : List String) : List (String × String) :=
  (pySorted paths).map (fun p => (p, p))

/-- Behaviour of Python 2 `commands.getstatusoutput` on raw subprocess
output: exactly one trailing newline is stripped, if present. -/
def getstatusoutputStrip (s : String) : String :=
  if s.data.getLast? == some '\n' then String.mk s.data.dropLast else s

/-- Modelled from the spec and `_file_contents`: what reading a
materialized historical artifact yields, as a function of the true blob
bytes `raw`.  The backend retrieval strips one trailing newline; the
source re-appends one to any non-empty retrieval. -/
def gitShowRead (raw : String) : String :=
  let s := getstatusoutputStrip raw
  if s ≠ "" then s ++ "\n" else s

/-! ### checkers.py: the output parser and the checker registry -/

/-- The named groups a `tool_err_re` match yields (`colno` may not
participate in the match). -/
structure MatchGroups where
  filename : String
  lineno : String
  colno : Option String
  msg : String
deriving DecidableEq

/-- The error dict built by `Checker._check_std` after the int
conversions (`colno` stays absent when the tool gave none). -/
structure ErrRecord where
  filename : String
  lineno : Nat
  colno : Option Nat
  msg : String
deriving DecidableEq

/-- A checker class: its class name, external `tool`, `tool_args`, the
matching function of its `tool_err_re`, and
`break_on_tool_re_mismatch`. -/
structure CheckerSpec where
  name : String
  tool : String
  tool_args : List String
  tool_err_re : String → Option MatchGroups
  break_on_tool_re_mismatch : Bool

/-- Values fed to Python `%` string formatting in the sources. -/
inductive PyVal
  | str (s : String)
  | strList (l : List String)

/-- Python `repr` of the values above. -/
def pyRepr : PyVal → String
  | PyVal.str s => "\x27" ++ s ++ "\x27"
  | PyVal.strList l =>
      "[" ++ String.intercalate ", " (l.map (fun s => "\x27" ++ s ++ "\x27")) ++ "]"

/-- Python `str` of the values above (as `%s` renders them). -/
def pyValStr : PyVal → String
  | PyVal.str s => s
  | PyVal.strList l => pyRepr (PyVal.strList l)

/-- Python `%` formatting with a tuple: each `%s`/`%r` consumes one
argument; leftover or missing arguments raise `TypeError`. -/
def pyFormatAux : List Char → List PyVal → Option (List Char)
  | [], [] => some []
  | [], _ :: _ => none
  | '%' :: 's' :: rest, a :: args =>
      (pyFormatAux rest args).map (fun t => (pyValStr a).data ++ t)
  | '%' :: 'r' :: rest, a :: args =>
      (pyFormatAux rest args).map (fun t => (pyRepr a).data ++ t)
  | '%' :: '%' :: rest, args =>
      (pyFormatAux rest args).map (fun t => '%' :: t)
  | '%' :: _ :: _, [] => none
  | c :: rest, args => (pyFormatAux rest args).map (fun t => c :: t)

/-- Python `fmt % args` returning the formatted string or `TypeError`. -/
def pyFormat (fmt : String) (args : List PyVal) : Except PyErr String :=
  match pyFormatAux fmt.data args with
  | none => Except.error PyErr.typeError
  | some l => Except.ok (String.mk l)

/-- The per-line body of the loop in `Checker._check_std`: `none` means
the line was skipped.  On a mismatch in strict mode the source evaluates
`'Unexpected `%s` output: %r' % (' '.join(cmd_pieces), paths, line)` —
three arguments against two conversions — before the `ValueError` could
be raised. -/
def parseLine (c : CheckerSpec) (cmdPieces paths : List String) (line : String) :
    Except PyErr (Option ErrRecord) :=
  match c.tool_err_re line with
  | none =>
      if c.break_on_tool_re_mismatch then
        match pyFormat "Unexpected `%s` output: %r"
            [PyVal.str (String.intercalate " " cmdPieces),
             PyVal.strList paths, PyVal.str line] with
        | Except.error e => Except.error e
        | Except.ok m => Except.error (PyErr.valueError m)
      else Except.ok none
  | some grp =>
      match pyInt? grp.lineno.data with
      | none =>
          Except.error (PyErr.valueError ("invalid literal for int(): " ++ grp.lineno))
      | some n =>
          match grp.colno with
          | none =>
              Except.ok (some ⟨grp.filename, n, none, grp.msg⟩)
          | some cs =>
              match pyInt? cs.data with
              | none =>
                  Except.error
                    (PyErr.valueError ("invalid literal for int(): " ++ cs))
              | some k => Except.ok (some ⟨grp.filename, n, some k, grp.msg⟩)

/-- The line loop of `Checker._check_std`. -/
def checkStdAux (c : CheckerSpec) (cmdPieces paths : List String) :
    List String → Except PyErr (List ErrRecord)
  | [] => Except.ok []
  | line :: rest =>
      match parseLine c cmdPieces paths line with
      | Except.error e => Except.error e
      | Except.ok none => checkStdAux c cmdPieces paths rest
      | Except.ok (some r) =>
          match checkStdAux c cmdPieces paths rest with
          | Except.error e => Except.error e
          | Except.ok tail => Except.ok (r :: tail)

/-- Outcome of launching an external tool: `osError` models `Popen`
raising `OSError` because the executable is not on the search path. -/
inductive ToolResult
  | osError
  | ran (out : String) (err : String)

/-- Oracles for everything outside the repository's own code: git, the
external tools (keyed by full argv), `fnmatch`, and the filesystem walk
used by `_resolve_paths`. -/
structure Env where
  git : GitState
  toolRun : List String → ToolResult
  fnmatch : String → String → Bool
  isdir : String → Bool
  walk : String → List (String × List String)

/-- `Checker.check` composed with `Checker._check_std`: empty path list
short-circuits; otherwise the tool runs on `[tool] ++ tool_args ++ paths`
and its combined, stripped stdout and stderr lines are parsed. -/
def check (env : Env) (c : CheckerSpec) (paths : List String) :
    Except PyErr (List ErrRecord) :=
  if paths.isEmpty then Except.ok []
  else
    let cmdPieces := (c.tool :: c.tool_args) ++ paths
    match env.toolRun cmdPieces with
    | ToolResult.osError => Except.error PyErr.osError
    | ToolResult.ran out err =>
        checkStdAux c cmdPieces paths
          (pySplitlines (pyStrip out) ++ pySplitlines (pyStrip err))

/-- The `tool_err_re` of `PEP8Checker` and `PyflakesChecker`:
`(?P<filename>[^:]+):(?P<lineno>\d+):(?:(?P<colno>\d+):)? (?P<msg>.*)`. -/
def stdErrMatch (line : String) : Option MatchGroups :=
  let cs := line.data
  let fn := cs.takeWhile (fun c => c != ':')
  if fn.isEmpty then none
  else
    match cs.drop fn.length with
    | ':' :: r1 =>
        let ln := r1.takeWhile Char.isDigit
        if ln.isEmpty then none
        else
          match r1.drop ln.length with
          | ':' :: r2 =>
              let cn := r2.takeWhile Char.isDigit
              let withColno : Option MatchGroups :=
                if cn.isEmpty then none
                else
                  match r2.drop cn.length with
                  | ':' :: ' ' :: msg =>
                      some ⟨String.mk fn, String.mk ln, some (String.mk cn),
                        String.mk msg⟩
                  | _ => none
              match withColno with
              | some grp => some grp
              | none =>
                  match r2 with
                  | ' ' :: msg =>
                      some ⟨String.mk fn, String.mk ln, none, String.mk msg⟩
                  | _ => none
          | _ => none
    | _ => none

/-- Tail of the `NodelintChecker` pattern after the filename:
`line (?P<lineno>\d+) column (?P<colno>\d+) (?P<msg>.*)`. -/
def nodelintTail (cs : List Char) : Option (List Char × List Char × List Char) :=
  match dropLit "line ".data cs with
  | none => none
  | some r1 =>
      let ln := r1.takeWhile Char.isDigit
      if ln.isEmpty then none
      else
        match dropLit " column ".data (r1.drop ln.length) with
        | none => none
        | some r2 =>
            let cn := r2.takeWhile Char.isDigit
            if cn.isEmpty then none
            else
              match r2.drop cn.length with
              | ' ' :: msg => some (ln, cn, msg)
              | _ => none

/-- The `tool_err_re` of `NodelintChecker`: the greedy `(?P<filename>.+)`
tries the longest filename first. -/
def nodelintMatch (line : String) : Option MatchGroups :=
  let cs := line.data
  (List.range (cs.length + 1)).reverse.findSome? (fun i =>
    if i == 0 then none
    else
      match nodelintTail (cs.drop i) with
      | none => none
      | some tl =>
          some ⟨String.mk (cs.take i), String.mk tl.1, some (String.mk tl.2.1),
            String.mk tl.2.2⟩)

/-- `NodelintChecker`. -/
def nodelintChecker : CheckerSpec :=
  ⟨"NodelintChecker", "nodelint", ["--reporter=vim"], nodelintMatch, false⟩

/-- `PEP8Checker`. -/
def pep8Checker : CheckerSpec :=
  ⟨"PEP8Checker", "pep8", ["--repeat"], stdErrMatch, false⟩

/-- `PyflakesChecker`. -/
def pyflakesChecker : CheckerSpec :=
  ⟨"PyflakesChecker", "pyflakes", [], stdErrMatch, false⟩

/-- The module-level `checkers` registry, in registration order. -/
def checkersRegistry : List (String × List CheckerSpec) :=
  [("js", [nodelintChecker]), ("py", [pep8Checker, pyflakesChecker])]

/-! ### main.py: path resolution and the dispatch loop -/

/-- The option values produced by the option parser. -/
structure Options where
  scmhandler : Option String
  ignores : List String
  list_checkers : Bool
  rev : Option String
  verbose : Bool

/-- The extension part of Python `os.path.splitext` (with the leading
dot, empty when the basename has no real extension). -/
def splitextExt (path : String) : String :=
  let base := (path.data.reverse.takeWhile (fun c => c != '/')).reverse
  let stripped := base.dropWhile (fun c => c == '.')
  let revTail := stripped.reverse.takeWhile (fun c => c != '.')
  if revTail.length == stripped.length then ""
  else String.mk ('.' :: revTail.reverse)

/-- `CodeQuality._relevant_checkers`: registry lookup by the final
dot-suffix with leading dots stripped. -/
def relevantCheckers (path : String) : List CheckerSpec :=
  let ext := String.mk ((splitextExt path).data.dropWhile (fun c => c == '.'))
  (assocGet? checkersRegistry ext).getD []

/-- `CodeQuality._should_ignore`. -/
def shouldIgnore (env : Env) (opts : Options) (path : String) : Bool :=
  opts.ignores.any (fun pat => env.fnmatch path pat)

/-- Adding to the Python `set` built by `_resolve_paths` (modelled as a
first-insertion-ordered duplicate-free list). -/
def pySetAdd (l : List String) (x : String) : List String :=
  if l.contains x then l else l ++ [x]

/-- The `path.startswith('.')` normalisation inside `_resolve_paths`. -/
def stripDotSlash (p : String) : String :=
  if p.data.headD ' ' == '.' then
    String.mk ((p.data.drop 1).dropWhile (fun c => c == '/'))
  else p

/-- `CodeQuality._resolve_paths`. -/
def resolvePaths (env : Env) (opts : Options) (paths : List String) : List String :=
  paths.foldl
    (fun result path =>
      if env.isdir path then
        (env.walk path).foldl
          (fun result dw =>
            dw.2.foldl
              (fun result fname =>
                let p := stripDotSlash (pyPathJoin dw.1 fname)
                if shouldIgnore env opts p then result else pySetAdd result p)
              result)
          result
      else pySetAdd result path)
    []

/-- The inner `loc_to_filename` dict of the dispatch loop. -/
abbrev LocMap := List (String × String)

/-- The outer `checker_to_loc_to_filename` dict, keyed by checker class. -/
abbrev CheckerDict := List (String × (CheckerSpec × LocMap))

/-- One `setdefault` + store step of the first dispatch-loop pass. -/
def dictAdd (d : CheckerDict) (c : CheckerSpec) (loc fn : String) : CheckerDict :=
  match assocGet? d c.name with
  | none => d ++ [(c.name, (c, assocSet [] loc fn))]
  | some cm => assocSet d c.name (cm.1, assocSet cm.2 loc fn)

/-- One source's step of the first dispatch-loop pass: skip ignored
display names, otherwise register the location under every relevant
checker. -/
def buildStep (env : Env) (opts : Options) (d : CheckerDict)
    (fl : String × String) : CheckerDict :=
  if shouldIgnore env opts fl.1 then d
  else (relevantCheckers fl.1).foldl (fun d c => dictAdd d c fl.2 fl.1) d

/-- The first pass of `CodeQuality.codequality`: group sources by
relevant checker, mapping each content location to its display name. -/
def buildDict (env : Env) (opts : Options) (srcs : List (String × String)) :
    CheckerDict :=
  srcs.foldl (buildStep env opts) []

/-- The per-record rewrite `err['filename'] = loc_to_filename[err['filename']]`;
a location the tool did not echo verbatim raises `KeyError`. -/
def rewriteRecords (m : LocMap) : List ErrRecord → Except PyErr (List ErrRecord)
  | [] => Except.ok []
  | e :: rest =>
      match assocGet? m e.filename with
      | none => Except.error (PyErr.keyError e.filename)
      | some fn =>
          match rewriteRecords m rest with
          | Except.error err => Except.error err
          | Except.ok tail => Except.ok ({ e with filename := fn } :: tail)

/-- The second pass of `CodeQuality.codequality`: run each checker once
over all its locations, skip checkers whose executable is missing
(`OSError`), rewrite and emit records, and track `errors_exist`.  This
version iterates entries and lists each entry's locations in
construction order; CPython 2's `iteritems()`/`keys()` order is
unspecified hash-table order, so order-sensitive properties are stated
over `runCheckersOrd`, of which this is the identity-order instance
(adequate for the order-insensitive statements proved about it). -/
def runCheckers (env : Env) : CheckerDict → Except PyErr (List ErrRecord × Bool)
  | [] => Except.ok ([], false)
  | entry :: rest =>
      let c := entry.2.1
      let m := entry.2.2
      match check env c (assocKeys m) with
      | Except.error PyErr.osError => runCheckers env rest
      | Except.error e => Except.error e
      | Except.ok errs =>
          match rewriteRecords m errs with
          | Except.error e => Except.error e
          | Except.ok recs =>
              match runCheckers env rest with
              | Except.error e => Except.error e
              | Except.ok tl => Except.ok (recs ++ tl.1, !errs.isEmpty || tl.2)

/-- `CodeQuality.codequality`: handler selection, path resolution, and
the dispatch loop.  The result is the emitted records (in emission
order) together with the `errors_exist` boolean. -/
def codequality (env : Env) (opts : Options) (paths : List String) :
    GitRes (List ErrRecord × Bool) :=
  if opts.list_checkers then pure ([], false)
  else
    let paths :=
      if paths.isEmpty && !pyTruthy opts.scmhandler then ["."] else paths
    if pyTruthy opts.scmhandler ∧ opts.scmhandler ≠ some "git" then
      gfail (PyErr.commandError
        ("no registered scm handler for \"" ++ pyOptStr opts.scmhandler ++ "\"."))
    else
      let ps := resolvePaths env opts paths
      if opts.scmhandler = some "git" then do
        let srcs ← gitSrcsToCheck env.git ps opts.rev
        (⟨[], runCheckers env (buildDict env opts srcs)⟩ : GitRes (List ErrRecord × Bool))
      else
        ⟨[], runCheckers env (buildDict env opts (noScmSrcsToCheck ps))⟩

/-- `main`: the exit status of the process.  Only `CommandError` is
caught; any other exception propagates out of `sys.exit(main())` and the
interpreter exits with status 1. -/
def mainExit (env : Env) (opts : Options) (paths : List String) : Nat :=
  match (codequality env opts paths).result with
  | Except.ok (_, true) => 1
  | Except.ok (_, false) => 0
  | Except.error _ => 1

/-! ### Derived definitions used by the theorems -/

/-- Events that are a `git rev-parse <ref>` resolution attempt. -/
def isResolveEvent : Event → Bool
  | Event.git (GitCmd.revParse _) => true
  | _ => false

/-- The locations registered for one checker entry of the outer dict. -/
def innerKeys (d : CheckerDict) (nm : String) : List String :=
  match assocGet? d nm with
  | none => []
  | some cm => assocKeys cm.2

/-- The dispatch loop with CPython 2's dict iteration order made
explicit: `kord` is the hash-table order in which `loc_to_filename.keys()`
happens to list each entry's locations (any permutation of the stored
keys), and the entry list itself stands for the `iteritems()` order over
checker classes (any permutation of the constructed entries).
`runCheckers` is the identity-order instance of this loop. -/
def runCheckersOrd (env : Env) (kord : List String → List String) :
    CheckerDict → Except PyErr (List ErrRecord × Bool)
  | [] => Except.ok ([], false)
  | entry :: rest =>
      match check env entry.2.1 (kord (assocKeys entry.2.2)) with
      | Except.error PyErr.osError => runCheckersOrd env kord rest
      | Except.error e => Except.error e
      | Except.ok errs =>
          match rewriteRecords entry.2.2 errs with
          | Except.error e => Except.error e
          | Except.ok recs =>
              match runCheckersOrd env kord rest with
              | Except.error e => Except.error e
              | Except.ok tl => Except.ok (recs ++ tl.1, !errs.isEmpty || tl.2)

/-- The records surfaced by a single checker invocation of the
order-explicit dispatch loop (a missing executable surfaces nothing). -/
def invocationRecordsOrd (env : Env) (kord : List String → List String)
    (entry : String × (CheckerSpec × LocMap)) : Except PyErr (List ErrRecord) :=
  match check env entry.2.1 (kord (assocKeys entry.2.2)) with
  | Except.error PyErr.osError => Except.ok []
  | Except.error e => Except.error e
  | Except.ok errs => rewriteRecords entry.2.2 errs

/-- The per-invocation record lists of an order-explicit dispatch-loop
pass, one list per checker entry in order, failing where the loop would
fail. -/
def invocationsRunOrd (env : Env) (kord : List String → List String) :
    CheckerDict → Except PyErr (List (List ErrRecord))
  | [] => Except.ok []
  | e :: rest =>
      match invocationRecordsOrd env kord e with
      | Except.error err => Except.error err
      | Except.ok recs =>
          match invocationsRunOrd env kord rest with
          | Except.error err => Except.error err
          | Except.ok parts => Except.ok (recs :: parts)

/-- The checker dict the dispatch loop builds in the no-backend case
(`--scm` absent): explicit paths, or `.` when none were given. -/
def noScmDict (env : Env) (opts : Options) (paths : List String) : CheckerDict :=
  buildDict env opts
    (noScmSrcsToCheck (resolvePaths env opts
      (if paths.isEmpty then ["."] else paths)))

/-! ### Concrete oracle states used by counterexamples and witnesses -/

/-- A git state with one tracked file `a.py`; `u.py` is untracked. -/
def gC1 : GitState where
  cmdOut := fun c =>
    match c with
    | GitCmd.lsFiles => Except.ok "a.py"
    | _ => Except.error "fatal"
  readFile := fun _ => ""

/-- A checker with strict parsing enabled. -/
def strictChecker : CheckerSpec :=
  ⟨"StrictChecker", "strictlint", [], stdErrMatch, true⟩

/-- The same checker with strict parsing disabled. -/
def lenientChecker : CheckerSpec :=
  ⟨"LenientChecker", "strictlint", [], stdErrMatch, false⟩

/-- An environment whose tool prints one unparseable line. -/
def envC2 : Env where
  git := gC1
  toolRun := fun _ => ToolResult.ran "garbage banner" ""
  fnmatch := fun _ _ => false
  isdir := fun _ => false
  walk := fun _ => []

/-- A git state for a working-tree (`rev=None`) run over tracked `a.py`.
Note the `ls-tree "None"` query issued by `_mode` when no rev is given;
it is answered successfully here. -/
def gC3 : GitState where
  cmdOut := fun c =>
    match c with
    | GitCmd.lsFiles => Except.ok "a.py"
    | GitCmd.diffSummary "HEAD" => Except.ok ""
    | GitCmd.lsTree "None" "a.py" => Except.ok "100644 blob abc\ta.py"
    | _ => Except.error "fatal"
  readFile := fun _ => "print 1\n"

/-- A canonical 40-hex commit identifier. -/
def commitA : String := "aaaaaaaaaaaaaaaaaaaaaaaaaaaaaaaaaaaaaaaa"

/-- A git state for a revision-mode run: the user-supplied reference is
already the canonical identifier `commitA`, and `f.py` is the single
changed tracked file. -/
def gC4 : GitState where
  cmdOut := fun c =>
    match c with
    | GitCmd.revParse r =>
        if r == commitA then Except.ok commitA else Except.error "bad"
    | GitCmd.lsFiles => Except.ok "f.py"
    | GitCmd.diffSummary _ => Except.ok ""
    | GitCmd.lsTree r p =>
        if r == commitA && p == "f.py" then Except.ok "100644 blob h\tf.py"
        else Except.error "bad"
    | GitCmd.showPrefixCmd => Except.ok ""
    | GitCmd.showFile r p =>
        if r == commitA && p == "f.py" then Except.ok "x" else Except.error "bad"
    | _ => Except.error "fatal"
  readFile := fun _ => ""

/-- A git state where the historical content of `f` at `commitA` is the
single byte "\n": the retrieval (`getstatusoutput` of `git show`)
returns it with its one trailing newline stripped, i.e. empty. -/
def gC5 : GitState where
  cmdOut := fun c =>
    match c with
    | GitCmd.revParse r =>
        if r == commitA then Except.ok commitA else Except.error "bad"
    | GitCmd.showPrefixCmd => Except.ok ""
    | GitCmd.showFile r p =>
        if r == commitA && p == "f" then Except.ok (getstatusoutputStrip "\n")
        else Except.error "bad"
    | _ => Except.error "fatal"
  readFile := fun _ => ""

/-- A git state where the historical content of `f` at `commitA` is
"hello" (no trailing newline). -/
def gC5w : GitState where
  cmdOut := fun c =>
    match c with
    | GitCmd.revParse r =>
        if r == commitA then Except.ok commitA else Except.error "bad"
    | GitCmd.showPrefixCmd => Except.ok ""
    | GitCmd.showFile r p =>
        if r == commitA && p == "f" then Except.ok (getstatusoutputStrip "hello")
        else Except.error "bad"
    | _ => Except.error "fatal"
  readFile := fun _ => ""

/-- A git state with a submodule `sub` (mode 160000) and a regular file
`reg.py`, queried in working-tree mode. -/
def gC6 : GitState where
  cmdOut := fun c =>
    match c with
    | GitCmd.lsTree "None" "sub" => Except.ok "160000 commit abc\tsub"
    | GitCmd.lsTree "None" "reg.py" => Except.ok "100644 blob abc\treg.py"
    | _ => Except.error "fatal"
  readFile := fun _ => "x\n"

/-- An environment where the `pep8` executable is missing from the
search path but `pyflakes` is installed and reports one error. -/
def envC7 : Env where
  git := gC1
  toolRun := fun argv =>
    match argv.headD "" with
    | "pyflakes" => ToolResult.ran "a.py:2: undefined name" ""
    | _ => ToolResult.osError
  fnmatch := fun _ _ => false
  isdir := fun _ => false
  walk := fun _ => []

/-- The checker dict for `a.py` under both registered py checkers. -/
def dictC7 : CheckerDict :=
  [("PEP8Checker", (pep8Checker, [("a.py", "a.py")])),
   ("PyflakesChecker", (pyflakesChecker, [("a.py", "a.py")]))]

/-- An environment for a full no-backend run over `a.py` where `pep8`
reports one style error and `pyflakes` is clean. -/
def envC8 : Env where
  git := gC1
  toolRun := fun argv =>
    match argv.headD "" with
    | "pep8" => ToolResult.ran "a.py:1:1: E001 bad" ""
    | "pyflakes" => ToolResult.ran "" ""
    | _ => ToolResult.osError
  fnmatch := fun _ _ => false
  isdir := fun _ => false
  walk := fun _ => []

/-- Default options: no scm handler, no ignores. -/
def optsC8 : Options := ⟨none, [], false, none, false⟩

/-- An environment whose `pep8` tool reports its findings as a function
of the argument order it is given, as real linters do (they scan files
in argv order); `pyflakes` is clean. -/
def envC9 : Env where
  git := gC1
  toolRun := fun argv =>
    match argv with
    | ["pep8", "--repeat", "a.py", "b.py"] =>
        ToolResult.ran "a.py:1:1: E001 bad" ""
    | ["pep8", "--repeat", "b.py", "a.py"] =>
        ToolResult.ran "b.py:2:1: E002 other" ""
    | _ => ToolResult.ran "" ""
  fnmatch := fun _ _ => false
  isdir := fun _ => false
  walk := fun _ => []

/-! ### Helper lemmas about the `GitRes` monad -/

theorem gitRes_bind_def {α β : Type} (x : GitRes α) (f : α → GitRes β) :
    x >>= f =
      match x.result with
      | Except.error e => ⟨x.events, Except.error e⟩
      | Except.ok a => ⟨x.events ++ (f a).events, (f a).result⟩ := rfl

theorem gitRes_pure_def {α : Type} (a : α) :
    (pure a : GitRes α) = ⟨[], Except.ok a⟩ := rfl

theorem gitRes_bind_ok_iff {α β : Type} (x : GitRes α) (f : α → GitRes β) (b : β) :
    (x >>= f).result = Except.ok b ↔
      ∃ a, x.result = Except.ok a ∧ (f a).result = Except.ok b := by
  rw [gitRes_bind_def]
  cases hx : x.result <;> simp [hx]

theorem gitRes_bind_events {α β : Type} (x : GitRes α) (f : α → GitRes β) :
    ∃ t, (x >>= f).events = x.events ++ t := by
  rw [gitRes_bind_def]
  cases hx : x.result
  · exact ⟨[], by simp⟩
  · exact ⟨_, rfl⟩

/-- Every path surviving the filter comprehension of `_paths_to_check`
appears in the `git ls-files` output. -/
theorem lsFilesFilter_mem (g : GitState) (ls : String)
    (hls : g.cmdOut GitCmd.lsFiles = Except.ok ls) :
    ∀ (ps l : List String), (lsFilesFilter g ps).result = Except.ok l →
      ∀ p ∈ l, p ∈ pySplitlines ls := by
  intro ps
  induction ps with
  | nil =>
      intro l h p hp
      simp only [lsFilesFilter, gitRes_pure_def] at h
      cases h
      simp at hp
  | cons q rest ih =>
      intro l h p hp
      simp only [lsFilesFilter] at h
      rw [gitRes_bind_ok_iff] at h
      obtain ⟨ls2, hls2, h⟩ := h
      rw [gitRes_bind_ok_iff] at h
      obtain ⟨tail, htail, h⟩ := h
      simp only [gitCmd, hls, gitRes_pure_def] at hls2 h
      cases hls2
      cases h
      by_cases hq : (pySplitlines ls).contains q
      · rw [if_pos hq] at hp
        rcases List.mem_cons.mp hp with hp | hp
        · subst hp
          exact List.mem_of_elem_eq_true hq
        · exact ih tail htail p hp
      · rw [if_neg hq] at hp
        exact ih tail htail p hp

/-- C1 (counterexample): in working-tree mode, with no ignore
configuration at all, requesting the untracked file `u.py` yields an
empty set of paths to check — untracked files are not included. -/
theorem c1_counterexample :
    gC1.cmdOut GitCmd.lsFiles = Except.ok "a.py" ∧
    "u.py" ∉ pySplitlines "a.py" ∧
    (pathsToCheck gC1 ["u.py"] "HEAD").result = Except.ok [] := by
  refine ⟨rfl, by decide, by decide⟩

/-- C1 (amended): the set of paths produced by `_paths_to_check` is
always restricted to the tracked files listed by `git ls-files`, so an
untracked file is never included, with or without configuration. -/
theorem c1_tracked_only (g : GitState) (paths : List String) (range : String)
    (ls : String) (l : List String)
    (hls : g.cmdOut GitCmd.lsFiles = Except.ok ls)
    (hok : (pathsToCheck g paths range).result = Except.ok l) :
    ∀ p ∈ l, p ∈ pySplitlines ls := by
  intro p hp
  simp only [pathsToCheck] at hok
  rw [gitRes_bind_ok_iff] at hok
  obtain ⟨ps2, _, h2⟩ := hok
  exact lsFilesFilter_mem g ls hls ps2 l h2 p hp

theorem c1_tracked_only_witness : "a.py" ∈ pySplitlines "a.py" :=
  c1_tracked_only gC1 ["a.py"] "HEAD" "a.py" ["a.py"] rfl (by decide) "a.py"
    (by decide)

/-- C2: on an output line that does not match the checker's pattern,
the lenient path skips the line silently (no record, no failure), but
the strict path does not produce the intended `ValueError` carrying the
command and the offending line: the message expression
`'Unexpected `%s` output: %r' % (' '.join(cmd_pieces), paths, line)`
supplies three arguments to two conversions, so a bare `TypeError` is
raised while the message is being built. -/
theorem c2_strict_format_bug :
    stdErrMatch "garbage banner" = none ∧
    pyFormat "Unexpected `%s` output: %r"
        [PyVal.str "strictlint a.py", PyVal.strList ["a.py"],
         PyVal.str "garbage banner"] = Except.error PyErr.typeError ∧
    check envC2 strictChecker ["a.py"] = Except.error PyErr.typeError ∧
    check envC2 lenientChecker ["a.py"] = Except.ok [] := by
  refine ⟨by decide, by decide, by decide, by decide⟩

/-- Every artifact yielded by `_srcs` in working-tree mode (`rev=None`)
has a freshly created temporary file as its content path. -/
theorem srcsAux_temp_names (g : GitState) (types : List (String × String)) :
    ∀ (ps : List String) (ctr : Nat) (l : List (String × String)),
      (srcsAux g types none ps ctr).result = Except.ok l →
      ∀ pr ∈ l, ∃ k, pr.2 = tempFileName k := by
  intro ps
  induction ps with
  | nil =>
      intro ctr l h pr hpr
      simp only [srcsAux, gitRes_pure_def] at h
      cases h
      simp at hpr
  | cons path rest ih =>
      intro ctr l h pr hpr
      simp only [srcsAux] at h
      rw [gitRes_bind_ok_iff] at h
      obtain ⟨m, _, h⟩ := h
      by_cases hsub : (m == 160000) = true
      · rw [if_pos hsub] at h
        exact ih ctr l h pr hpr
      · rw [if_neg hsub] at h
        by_cases hty : assocGet? types path = none ∨
            assocGet? types path = some "create" ∨
            assocGet? types path = some "rename"
        · rw [if_pos hty] at h
          rw [gitRes_bind_ok_iff] at h
          obtain ⟨contents, _, h⟩ := h
          rw [gitRes_bind_ok_iff] at h
          obtain ⟨u, _, h⟩ := h
          rw [gitRes_bind_ok_iff] at h
          obtain ⟨tail, htail, h⟩ := h
          simp only [gitRes_pure_def] at h
          cases h
          rcases List.mem_cons.mp hpr with hpr | hpr
          · subst hpr
            exact ⟨ctr, rfl⟩
          · exact ih (ctr + 1) tail htail pr hpr
        · rw [if_neg hty] at h
          by_cases hdel : assocGet? types path = some "delete"
          · rw [if_pos hdel] at h
            exact ih ctr l h pr hpr
          · rw [if_neg hdel] at h
            simp [gfail] at h

/-- C3 (counterexample): a working-tree (`rev=None`) run of the git
handler over the tracked file `a.py` hands the checkers an artifact
whose content path is a temporary file, not the display name, after
reading the working-tree file and writing a temporary copy. -/
theorem c3_counterexample :
    (gitSrcsToCheck gC3 ["a.py"] none).result =
      Except.ok [("a.py", "/tmp/codequalitytmp0")] ∧
    ("a.py" : String) ≠ "/tmp/codequalitytmp0" ∧
    Event.openRead "a.py" ∈ (gitSrcsToCheck gC3 ["a.py"] none).events ∧
    Event.writeTemp "/tmp/codequalitytmp0" "print 1\n" ∈
      (gitSrcsToCheck gC3 ["a.py"] none).events := by
  refine ⟨by decide, by decide, by decide, by decide⟩

/-- C3 (amended): with no revision given, the no-scm handler checks
every path in place (content path = display name, no I/O), whereas the
git handler materializes even working-tree content: every artifact it
yields has a temporary file as its content path. -/
theorem c3_amended (g : GitState) (ps : List String) (l : List (String × String))
    (hok : (gitSrcsToCheck g ps none).result = Except.ok l) :
    (∀ pr ∈ noScmSrcsToCheck ps, pr.2 = pr.1) ∧
    (∀ pr ∈ l, ∃ k, pr.2 = tempFileName k) := by
  constructor
  · intro pr hpr
    simp only [noScmSrcsToCheck, List.mem_map] at hpr
    obtain ⟨p, _, hp⟩ := hpr
    rw [← hp]
  · simp only [gitSrcsToCheck, resolveRev, pyTruthy] at hok
    rw [if_neg (by simp)] at hok
    rw [gitRes_bind_ok_iff] at hok
    obtain ⟨rev, hrev, hok⟩ := hok
    simp only [gitRes_pure_def] at hrev
    cases hrev
    rw [gitRes_bind_ok_iff] at hok
    obtain ⟨paths2, _, hok⟩ := hok
    rw [gitRes_bind_ok_iff] at hok
    obtain ⟨types, _, hok⟩ := hok
    exact srcsAux_temp_names g types paths2 0 l hok

theorem c3_amended_witness :
    ∃ k, (("a.py", "/tmp/codequalitytmp0") : String × String).2 = tempFileName k :=
  (c3_amended gC3 ["a.py"] [("a.py", "/tmp/codequalitytmp0")] (by decide)).2
    ("a.py", "/tmp/codequalitytmp0") (by decide)

/-- C4 (counterexample): for a one-file revision-mode run where the
user-supplied reference is already canonical, the reference is resolved
with `git rev-parse` twice — once up front in `srcs_to_check` and again
inside `_file_contents` — so resolution is not attempted at most once. -/
theorem c4_counterexample :
    ¬ ((gitSrcsToCheck gC4 ["f.py"] (some commitA)).events.count
        (Event.git (GitCmd.revParse commitA)) ≤ 1) := by
  decide

/-- The first backend query of a revision-mode `srcs_to_check` is the
resolution of the user-supplied reference. -/
theorem resolveRev_events_cons (g : GitState) (r : String) (h : r ≠ "") :
    ∃ t, (resolveRev g (some r)).events =
      Event.git (GitCmd.revParse r) :: t := by
  unfold resolveRev
  rw [if_pos (by simp [pyTruthy, h]), gitRes_bind_def]
  cases hc : (gitCmd g (GitCmd.revParse (pyOptStr (some r)))).result with
  | error e => exact ⟨[], rfl⟩
  | ok a => exact ⟨_, rfl⟩

/-- C4 (amended): the user-supplied reference is resolved once up front
— the very first backend query of `srcs_to_check` is `git rev-parse` on
it — but the resolved identifier is not simply reused: every call of
`_file_contents` with a revision performs exactly one further resolution
attempt of the revision it was handed. -/
theorem c4_amended (g : GitState) (ps : List String) (path r : String)
    (h : r ≠ "") :
    (gitSrcsToCheck g ps (some r)).events.head? =
      some (Event.git (GitCmd.revParse r)) ∧
    (fileContents g path (some r)).events.countP isResolveEvent = 1 := by
  have htr : pyTruthy (some r) = true := by simp [pyTruthy, h]
  constructor
  · unfold gitSrcsToCheck
    rw [gitRes_bind_def]
    obtain ⟨t, ht⟩ := resolveRev_events_cons g r h
    cases hc : (resolveRev g (some r)).result with
    | error e => simp [ht]
    | ok a => simp [ht]
  · unfold fileContents
    rw [gitRes_bind_def]
    cases hc : g.cmdOut (GitCmd.revParse r) with
    | error e =>
        simp [resolveRev, htr, gitRes_bind_def, gitCmd, hc, isResolveEvent,
          pyOptStr]
    | ok out =>
        by_cases hm : gitCommitMatch out = true
        · have hres : resolveRev g (some r) =
              ⟨[Event.git (GitCmd.revParse r)], Except.ok (some out)⟩ := by
            unfold resolveRev
            rw [if_pos htr, gitRes_bind_def]
            simp [gitCmd, hc, hm, gitRes_pure_def, pyOptStr, gfail]
          rw [hres]
          simp only
          unfold pathFromRepoRoot
          rw [gitRes_bind_def]
          cases hp : g.cmdOut GitCmd.showPrefixCmd with
          | error e =>
              simp [gitCmd, hp, isResolveEvent, gitRes_bind_def, gitRes_pure_def]
          | ok pfx =>
              simp only [gitCmd, hp]
              rw [gitRes_bind_def]
              cases hf : g.cmdOut (GitCmd.showFile out (pyPathJoin pfx path)) with
              | error e =>
                  simp [gitCmd, hf, isResolveEvent, gitRes_bind_def,
                    gitRes_pure_def]
              | ok res =>
                  simp [gitCmd, hf, gitRes_pure_def, isResolveEvent,
                    gitRes_bind_def]
        · have hres : resolveRev g (some r) =
              ⟨[Event.git (GitCmd.revParse r)],
                Except.error (PyErr.gitError
                  ("\"" ++ out ++ "\" does not appear to be a commit."))⟩ := by
            unfold resolveRev
            rw [if_pos htr, gitRes_bind_def]
            simp [gitCmd, hc, hm, gfail, pyOptStr]
          rw [hres]
          simp [isResolveEvent]

theorem c4_amended_witness :
    (gitSrcsToCheck gC4 ["f.py"] (some commitA)).events.head? =
      some (Event.git (GitCmd.revParse commitA)) ∧
    (fileContents gC4 "f.py" (some commitA)).events.countP isResolveEvent = 1 :=
  c4_amended gC4 ["f.py"] "f.py" commitA (by decide)

/-- C5 (counterexample): if the historical content of `f` at `commitA`
is the single byte "\n" (non-empty), the materialized artifact is empty:
neither the historical bytes nor the historical bytes with one appended
line terminator. -/
theorem c5_counterexample :
    gC5.cmdOut (GitCmd.showFile commitA "f") =
      Except.ok (getstatusoutputStrip "\n") ∧
    (fileContents gC5 "f" (some commitA)).result = Except.ok "" ∧
    ("" : String) ≠ "\n" ∧ ("" : String) ≠ "\n" ++ "\n" := by
  refine ⟨by decide, by decide, by decide, by decide⟩

/-- C5 (amended): materializing `path` at a revision yields exactly
`gitShowRead raw` where `raw` is the historical byte content: the
retrieval strips one trailing newline and the source appends one back to
any non-empty retrieval.  Content without a trailing newline gains one;
content ending in a newline round-trips unchanged — except that content
equal to a lone newline collapses to empty. -/
theorem c5_amended (g : GitState) (path r rr pfx raw : String)
    (h0 : r ≠ "")
    (h1 : g.cmdOut (GitCmd.revParse r) = Except.ok rr)
    (h2 : gitCommitMatch rr = true)
    (h3 : g.cmdOut GitCmd.showPrefixCmd = Except.ok pfx)
    (h4 : g.cmdOut (GitCmd.showFile rr (pyPathJoin pfx path)) =
      Except.ok (getstatusoutputStrip raw)) :
    (fileContents g path (some r)).result = Except.ok (gitShowRead raw) := by
  simp [fileContents, resolveRev, pathFromRepoRoot, gitCmd, gitRes_bind_def,
    gitRes_pure_def, pyTruthy, pyOptStr, h0, h1, h2, h3, h4, gitShowRead]

theorem c5_amended_witness :
    (fileContents gC5w "f" (some commitA)).result =
      Except.ok (gitShowRead "hello") :=
  c5_amended gC5w "f" commitA commitA "" "hello" (by decide) rfl (by decide)
    rfl rfl

/-- C6: a path whose git mode marks it as a submodule reference
(mode 160000) is never among the artifacts `_srcs` yields, whatever
change type the diff summary reported for it. -/
theorem c6_submodule_excluded (g : GitState) (types : List (String × String))
    (rev : Option String) (p out : String)
    (hout : g.cmdOut (GitCmd.lsTree (pyOptStr rev) p) = Except.ok out)
    (hsub : pyIntFirstToken out = some 160000) :
    ∀ (ps : List String) (ctr : Nat) (l : List (String × String)),
      (srcsAux g types rev ps ctr).result = Except.ok l →
      p ∉ l.map Prod.fst := by
  intro ps
  induction ps with
  | nil =>
      intro ctr l h
      simp only [srcsAux, gitRes_pure_def] at h
      cases h
      simp
  | cons path rest ih =>
      intro ctr l h
      simp only [srcsAux] at h
      rw [gitRes_bind_ok_iff] at h
      obtain ⟨m, hm, h⟩ := h
      by_cases hpp : path = p
      · subst hpp
        simp only [gitMode, gitRes_bind_def, gitCmd, hout, gitRes_pure_def, hsub]
          at hm
        cases hm
        rw [if_pos (by decide)] at h
        exact ih ctr l h
      · by_cases hsubm : (m == 160000) = true
        · rw [if_pos hsubm] at h
          exact ih ctr l h
        · rw [if_neg hsubm] at h
          by_cases hty : assocGet? types path = none ∨
              assocGet? types path = some "create" ∨
              assocGet? types path = some "rename"
          · rw [if_pos hty] at h
            rw [gitRes_bind_ok_iff] at h
            obtain ⟨contents, _, h⟩ := h
            rw [gitRes_bind_ok_iff] at h
            obtain ⟨u, _, h⟩ := h
            rw [gitRes_bind_ok_iff] at h
            obtain ⟨tail, htail, h⟩ := h
            simp only [gitRes_pure_def] at h
            cases h
            intro hmem
            simp only [List.map_cons, List.mem_cons] at hmem
            rcases hmem with hmem | hmem
            · exact hpp hmem.symm
            · exact ih (ctr + 1) tail htail hmem
          · rw [if_neg hty] at h
            by_cases hdel : assocGet? types path = some "delete"
            · rw [if_pos hdel] at h
              exact ih ctr l h
            · rw [if_neg hdel] at h
              simp [gfail] at h

theorem c6_submodule_excluded_witness :
    "sub" ∉ ([("reg.py", tempFileName 0)].map Prod.fst) :=
  c6_submodule_excluded gC6 [("sub", "create")] none "sub"
    "160000 commit abc\tsub" rfl (by decide) ["sub", "reg.py"] 0
    [("reg.py", tempFileName 0)] (by decide)

/-- C7: a checker whose executable is not on the search path (its
invocation reports `OSError`) is skipped entirely: the dispatch loop
behaves exactly as if that checker's entry were absent — no record is
emitted for it, no fatal error is raised, and all other checkers run
unaffected. -/
theorem c7_missing_tool_skipped (env : Env) (pre post : CheckerDict)
    (nm : String) (c : CheckerSpec) (m : LocMap)
    (h : env.toolRun ((c.tool :: c.tool_args) ++ assocKeys m) = ToolResult.osError) :
    runCheckers env (pre ++ (nm, (c, m)) :: post) = runCheckers env (pre ++ post) := by
  induction pre with
  | nil =>
      simp only [List.nil_append, runCheckers]
      by_cases hk : (assocKeys m).isEmpty
      · simp only [check, if_pos hk, rewriteRecords]
        cases hrest : runCheckers env post with
        | error e => rfl
        | ok tl => simp
      · simp only [check, if_neg hk, h]
  | cons e pre ih =>
      simp only [List.cons_append, runCheckers, List.append_eq, ih]

theorem c7_missing_tool_skipped_witness :
    runCheckers envC7 dictC7 =
      runCheckers envC7 [("PyflakesChecker", (pyflakesChecker, [("a.py", "a.py")]))] ∧
    runCheckers envC7 [("PyflakesChecker", (pyflakesChecker, [("a.py", "a.py")]))] =
      Except.ok ([⟨"a.py", 2, none, "undefined name"⟩], true) :=
  ⟨c7_missing_tool_skipped envC7 []
      [("PyflakesChecker", (pyflakesChecker, [("a.py", "a.py")]))]
      "PEP8Checker" pep8Checker [("a.py", "a.py")] rfl,
   by decide⟩

/-- A successful filename rewrite preserves the number of records. -/
theorem rewriteRecords_length (m : LocMap) :
    ∀ (errs l : List ErrRecord), rewriteRecords m errs = Except.ok l →
      l.length = errs.length := by
  intro errs
  induction errs with
  | nil =>
      intro l h
      simp only [rewriteRecords] at h
      cases h
      rfl
  | cons e rest ih =>
      intro l h
      simp only [rewriteRecords] at h
      cases hget : assocGet? m e.filename with
      | none => rw [hget] at h; cases h
      | some fn =>
          rw [hget] at h
          cases hrest : rewriteRecords m rest with
          | error e2 => rw [hrest] at h; cases h
          | ok tail =>
              rw [hrest] at h
              cases h
              simp [ih tail hrest]

/-- The `errors_exist` boolean of the dispatch loop is true exactly when
at least one record was emitted. -/
theorem runCheckers_flag (env : Env) :
    ∀ (d : CheckerDict) (recs : List ErrRecord) (flag : Bool),
      runCheckers env d = Except.ok (recs, flag) → (flag = true ↔ recs ≠ []) := by
  intro d
  induction d with
  | nil =>
      intro recs flag h
      simp only [runCheckers] at h
      cases h
      simp
  | cons e rest ih =>
      intro recs flag h
      simp only [runCheckers] at h
      split at h
      · exact ih recs flag h
      · cases h
      · rename_i errs heq
        split at h
        · cases h
        · rename_i rrecs hrw
          split at h
          · cases h
          · rename_i tl htl
            cases h
            have hlen := rewriteRecords_length e.2.2 errs rrecs hrw
            have hih := ih tl.1 tl.2 (by rw [htl])
            constructor
            · intro hf
              rcases Bool.or_eq_true_iff.mp hf with hf | hf
              · have : errs ≠ [] := by
                  intro hnil
                  rw [hnil] at hf
                  simp at hf
                have : rrecs ≠ [] := by
                  intro hnil
                  rw [hnil] at hlen
                  exact this (List.eq_nil_of_length_eq_zero hlen.symm)
                simp [this]
              · have := hih.mp hf
                simp [this]
            · intro hne
              by_cases herrs : errs = []
              · have hrrecs : rrecs = [] := by
                  rw [herrs] at hlen
                  exact List.eq_nil_of_length_eq_zero hlen
                have htl1 : tl.1 ≠ [] := by
                  intro hc
                  exact hne (by rw [hrrecs, hc]; rfl)
                simp [hih.mpr htl1]
              · simp [herrs]

/-- C8: the dispatch loop's boolean result is true iff at least one
error record was emitted; the process exits non-zero iff at least one
record was emitted or a fatal error occurred, and zero otherwise. -/
theorem c8_exit_code (env : Env) (opts : Options) (paths : List String) :
    (∀ recs flag, (codequality env opts paths).result = Except.ok (recs, flag) →
      (flag = true ↔ recs ≠ [])) ∧
    (mainExit env opts paths ≠ 0 ↔
      ((∃ e, (codequality env opts paths).result = Except.error e) ∨
       (∃ recs flag, (codequality env opts paths).result = Except.ok (recs, flag) ∧
          recs ≠ []))) := by
  have part1 : ∀ recs flag,
      (codequality env opts paths).result = Except.ok (recs, flag) →
      (flag = true ↔ recs ≠ []) := by
    intro recs flag h
    simp only [codequality] at h
    split at h
    · simp only [gitRes_pure_def] at h
      cases h
      simp
    · split at h
      · simp [gfail] at h
      · split at h
        · rw [gitRes_bind_ok_iff] at h
          obtain ⟨srcs, _, h⟩ := h
          exact runCheckers_flag env _ recs flag h
        · exact runCheckers_flag env _ recs flag h
  refine ⟨part1, ?_⟩
  unfold mainExit
  cases hres : (codequality env opts paths).result with
  | error e => simp [hres]
  | ok pr =>
      cases pr with
      | mk recs flag =>
          cases flag with
          | true =>
              simp only [hres]
              constructor
              · intro _
                exact Or.inr ⟨recs, true, rfl, (part1 recs true hres).mp rfl⟩
              · intro _
                decide
          | false =>
              simp only [hres]
              constructor
              · intro hcon
                exact absurd rfl hcon
              · rintro (⟨e, he⟩ | ⟨recs2, flag2, he, hne⟩)
                · cases he
                · cases he
                  exact absurd ((part1 recs false hres).mpr hne) (by simp)

theorem c8_exit_code_witness :
    (true = true ↔ ([⟨"a.py", 1, some 1, "E001 bad"⟩] : List ErrRecord) ≠ []) ∧
    mainExit envC8 optsC8 ["a.py"] ≠ 0 :=
  ⟨(c8_exit_code envC8 optsC8 ["a.py"]).1 [⟨"a.py", 1, some 1, "E001 bad"⟩] true
      (by decide),
   (c8_exit_code envC8 optsC8 ["a.py"]).2.mpr
      (Or.inr ⟨[⟨"a.py", 1, some 1, "E001 bad"⟩], true, by decide, by decide⟩)⟩

/-- A key is absent from an assoc list iff the lookup returns `none`. -/
theorem assocGet?_eq_none {α : Type} :
    ∀ (d : List (String × α)) (k : String),
      assocGet? d k = none ↔ k ∉ assocKeys d := by
  intro d
  induction d with
  | nil => intro k; simp [assocGet?, assocKeys]
  | cons e rest ih =>
      intro k
      simp only [assocGet?, assocKeys, List.map_cons, List.mem_cons]
      by_cases hk : (e.1 == k) = true
      · rw [if_pos hk]
        simp [eq_of_beq hk]
      · rw [if_neg hk]
        rw [beq_iff_eq] at hk
        constructor
        · intro hnone hmem
          rcases hmem with hmem | hmem
          · exact hk hmem.symm
          · exact (ih k).mp hnone (by simpa [assocKeys] using hmem)
        · intro hmem
          exact (ih k).mpr (fun hc => hmem (Or.inr (by simpa [assocKeys] using hc)))

/-- When every reported filename is a known content path, the rewrite
succeeds and substitutes each display name. -/
theorem rewriteRecords_total (m : LocMap) :
    ∀ errs : List ErrRecord, (∀ e ∈ errs, e.filename ∈ assocKeys m) →
      rewriteRecords m errs =
        Except.ok (errs.map (fun e =>
          { e with filename := (assocGet? m e.filename).getD e.filename })) := by
  intro errs
  induction errs with
  | nil => intro _; rfl
  | cons e rest ih =>
      intro hall
      have hmem := hall e (List.mem_cons_self e rest)
      cases hget : assocGet? m e.filename with
      | none => exact absurd hmem ((assocGet?_eq_none m e.filename).mp hget)
      | some fn =>
          simp only [rewriteRecords, hget,
            ih (fun x hx => hall x (List.mem_cons_of_mem e hx)), List.map_cons]
          simp [hget]

/-- A record whose filename is not a known content path makes the
rewrite fail with a `KeyError` naming some unknown filename. -/
theorem rewriteRecords_keyError (m : LocMap) :
    ∀ errs : List ErrRecord, ∀ e ∈ errs, e.filename ∉ assocKeys m →
      ∃ f, f ∉ assocKeys m ∧
        rewriteRecords m errs = Except.error (PyErr.keyError f) := by
  intro errs
  induction errs with
  | nil => intro e he; simp at he
  | cons e0 rest ih =>
      intro e he hnot
      by_cases h0 : e0.filename ∈ assocKeys m
      · have he' : e ∈ rest := by
          rcases List.mem_cons.mp he with hc | hc
          · subst hc; exact absurd h0 hnot
          · exact hc
        obtain ⟨f, hf, hrw⟩ := ih e he' hnot
        cases hget : assocGet? m e0.filename with
        | none => exact absurd h0 ((assocGet?_eq_none m e0.filename).mp hget)
        | some fn =>
            refine ⟨f, hf, ?_⟩
            simp only [rewriteRecords, hget, hrw]
      · refine ⟨e0.filename, h0, ?_⟩
        have hget : assocGet? m e0.filename = none :=
          (assocGet?_eq_none m e0.filename).mpr h0
        simp only [rewriteRecords, hget]

/-- C10: surfacing error records is total exactly when every filename
the tool reported is one of the content paths passed to that
invocation: then every record's filename is rewritten to its display
name via the lookup; a single record with any other filename makes the
whole run abort with a `KeyError` — an unhandled lookup failure distinct
from the repository's own error classes. -/
theorem c10_lookup_totality (m : LocMap) (errs : List ErrRecord) :
    ((∀ e ∈ errs, e.filename ∈ assocKeys m) →
      rewriteRecords m errs =
        Except.ok (errs.map (fun e =>
          { e with filename := (assocGet? m e.filename).getD e.filename }))) ∧
    (∀ e ∈ errs, e.filename ∉ assocKeys m →
      ∃ f, f ∉ assocKeys m ∧
        rewriteRecords m errs = Except.error (PyErr.keyError f)) ∧
    (∀ (env : Env) (nm : String) (c : CheckerSpec) (rest : CheckerDict),
      check env c (assocKeys m) = Except.ok errs →
      (∃ e ∈ errs, e.filename ∉ assocKeys m) →
      ∃ f, runCheckers env ((nm, (c, m)) :: rest) =
        Except.error (PyErr.keyError f)) := by
  refine ⟨rewriteRecords_total m errs, rewriteRecords_keyError m errs, ?_⟩
  intro env nm c rest hchk ⟨e, he, hnot⟩
  obtain ⟨f, _, hrw⟩ := rewriteRecords_keyError m errs e he hnot
  refine ⟨f, ?_⟩
  simp only [runCheckers, hchk, hrw]

theorem c10_lookup_totality_witness :
    ∃ f, f ∉ assocKeys ([("tmp1", "a.py")] : LocMap) ∧
      rewriteRecords [("tmp1", "a.py")] [⟨"b.py", 1, none, "m"⟩] =
        Except.error (PyErr.keyError f) :=
  (c10_lookup_totality [("tmp1", "a.py")] [⟨"b.py", 1, none, "m"⟩]).2.1
    ⟨"b.py", 1, none, "m"⟩ (by decide) (by decide)

/-! ### Order lemmas for Python sorted() -/

theorem charListLe_total : ∀ (a b : List Char),
    charListLe a b = true ∨ charListLe b a = true := by
  intro a
  induction a with
  | nil => intro b; left; rfl
  | cons x xs ih =>
      intro b
      cases b with
      | nil => right; rfl
      | cons y ys =>
          simp only [charListLe]
          by_cases hxy : x.toNat = y.toNat
          · rw [if_pos hxy, if_pos hxy.symm]
            exact ih ys
          · rw [if_neg hxy, if_neg (fun hc => hxy hc.symm)]
            by_cases hlt : x.toNat < y.toNat
            · left; exact decide_eq_true hlt
            · right; exact decide_eq_true (by omega)

theorem charListLe_trans : ∀ (a b c : List Char),
    charListLe a b = true → charListLe b c = true → charListLe a c = true := by
  intro a
  induction a with
  | nil => intro b c _ _; rfl
  | cons x xs ih =>
      intro b c hab hbc
      cases b with
      | nil => cases hab
      | cons y ys =>
          cases c with
          | nil => cases hbc
          | cons z zs =>
              simp only [charListLe] at hab hbc ⊢
              by_cases hxy : x.toNat = y.toNat
              · rw [if_pos hxy] at hab
                by_cases hyz : y.toNat = z.toNat
                · rw [if_pos hyz] at hbc
                  rw [if_pos (hxy.trans hyz)]
                  exact ih ys zs hab hbc
                · rw [if_neg hyz] at hbc
                  have hlt : y.toNat < z.toNat := of_decide_eq_true hbc
                  rw [if_neg (by omega)]
                  exact decide_eq_true (by omega)
              · rw [if_neg hxy] at hab
                have hlt : x.toNat < y.toNat := of_decide_eq_true hab
                by_cases hyz : y.toNat = z.toNat
                · rw [if_neg (by omega)]
                  exact decide_eq_true (by omega)
                · rw [if_neg hyz] at hbc
                  have hlt2 : y.toNat < z.toNat := of_decide_eq_true hbc
                  rw [if_neg (by omega)]
                  exact decide_eq_true (by omega)

theorem strLe_total (a b : String) : strLe a b = true ∨ strLe b a = true :=
  charListLe_total a.data b.data

theorem strLe_trans (a b c : String) (hab : strLe a b = true)
    (hbc : strLe b c = true) : strLe a c = true :=
  charListLe_trans a.data b.data c.data hab hbc

theorem mem_orderedInsertStr (x a : String) :
    ∀ l, a ∈ orderedInsertStr x l ↔ a = x ∨ a ∈ l := by
  intro l
  induction l with
  | nil => simp [orderedInsertStr]
  | cons y ys ih =>
      simp only [orderedInsertStr]
      by_cases h : strLe x y = true
      · rw [if_pos h]
        simp [List.mem_cons]
      · rw [if_neg h]
        simp only [List.mem_cons, ih]
        tauto

theorem orderedInsertStr_sorted (x : String) :
    ∀ l, List.Pairwise (fun a b => strLe a b = true) l →
      List.Pairwise (fun a b => strLe a b = true) (orderedInsertStr x l) := by
  intro l
  induction l with
  | nil => intro _; simp [orderedInsertStr]
  | cons y ys ih =>
      intro hp
      have hp' := List.pairwise_cons.mp hp
      simp only [orderedInsertStr]
      by_cases h : strLe x y = true
      · rw [if_pos h]
        refine List.pairwise_cons.mpr ⟨?_, hp⟩
        intro b hb
        rcases List.mem_cons.mp hb with hb | hb
        · subst hb; exact h
        · exact strLe_trans x y b h (hp'.1 b hb)
      · rw [if_neg h]
        refine List.pairwise_cons.mpr ⟨?_, ih hp'.2⟩
        intro b hb
        rcases (mem_orderedInsertStr x b ys).mp hb with hb | hb
        · subst hb
          rcases strLe_total b y with ht | ht
          · exact absurd ht h
          · exact ht
        · exact hp'.1 b hb

/-- `sorted(paths)` is sorted under the byte-wise order. -/
theorem pySorted_sorted (l : List String) :
    List.Pairwise (fun a b => strLe a b = true) (pySorted l) := by
  unfold pySorted
  induction l with
  | nil => simp
  | cons x xs ih => exact orderedInsertStr_sorted x _ ih

/-- The no-backend handler enumerates its display names in sorted path
order. -/
theorem noScm_map_fst (ps : List String) :
    (noScmSrcsToCheck ps).map Prod.fst = pySorted ps := by
  simp only [noScmSrcsToCheck, List.map_map]
  exact List.map_id' _

/-- The insertion-ordered loop `runCheckers` is the identity-order
instance of the order-explicit loop. -/
theorem runCheckersOrd_id (env : Env) :
    ∀ d : CheckerDict, runCheckersOrd env (fun l => l) d = runCheckers env d := by
  intro d
  induction d with
  | nil => rfl
  | cons e rest ih => simp only [runCheckersOrd, runCheckers, ih]

/-- However the dict happens to order keys, the records of a successful
pass are the per-invocation record lists concatenated in invocation
order. -/
theorem runCheckersOrd_invocations (env : Env)
    (kord : List String → List String) :
    ∀ (d : CheckerDict) (recs : List ErrRecord) (flag : Bool),
      runCheckersOrd env kord d = Except.ok (recs, flag) →
      ∃ parts : List (List ErrRecord),
        invocationsRunOrd env kord d = Except.ok parts ∧
          recs = parts.flatten := by
  intro d
  induction d with
  | nil =>
      intro recs flag h
      simp only [runCheckersOrd] at h
      cases h
      exact ⟨[], rfl, rfl⟩
  | cons e rest ih =>
      intro recs flag h
      simp only [runCheckersOrd] at h
      split at h
      · rename_i heq
        obtain ⟨parts, hmap, hrecs⟩ := ih recs flag h
        refine ⟨[] :: parts, ?_, by simpa using hrecs⟩
        simp only [invocationsRunOrd, invocationRecordsOrd, heq, hmap]
      · cases h
      · rename_i errs heq
        split at h
        · cases h
        · rename_i rrecs hrw
          split at h
          · cases h
          · rename_i tl htl
            cases h
            obtain ⟨parts, hmap, hrecs⟩ := ih tl.1 tl.2 (by rw [htl])
            refine ⟨rrecs :: parts, ?_, by simp [hrecs]⟩
            simp only [invocationsRunOrd, invocationRecordsOrd, heq, hrw, hmap]

/-- C9 (counterexample): the order in which `loc_to_filename.keys()`
lists a checker's locations is CPython 2 hash-table order — unspecified
beyond being some permutation of the stored keys.  For the two tracked
files, the reversed order is such a permutation; under it the checker
receives its files out of sorted path order, and the run emits different
records than under the insertion order, so the loop's observable
behavior depends on the unspecified dict order: files are not processed
in sorted path order and the processing order is not deterministic. -/
theorem c9_counterexample :
    innerKeys (noScmDict envC9 optsC8 ["a.py", "b.py"]) "PEP8Checker" =
      ["a.py", "b.py"] ∧
    List.Perm (List.reverse ["a.py", "b.py"]) ["a.py", "b.py"] ∧
    ¬ List.Pairwise (fun a b => strLe a b = true)
        (List.reverse ["a.py", "b.py"]) ∧
    runCheckersOrd envC9 List.reverse
        (noScmDict envC9 optsC8 ["a.py", "b.py"]) ≠
      runCheckersOrd envC9 (fun l => l)
        (noScmDict envC9 optsC8 ["a.py", "b.py"]) := by
  refine ⟨by decide, by decide, by decide, by decide⟩

/-- C9 (amended): checker invocations occur strictly one after another,
each checker running once over its registered locations, and the emitted
records are exactly the per-invocation record lists concatenated in the
order the invocations happened, with no batching or sorting applied
afterward; in the no-backend case the handler enumerates files for
classification in sorted path order.  But the per-checker grouping goes
through CPython 2 dicts, so the order in which checkers are iterated
(`d` ranges over the permutations of the constructed dict) and the order
of files within one invocation (`kord`, any permutation of the stored
keys) are unspecified: an invocation is guaranteed only some permutation
of its registered locations, not sorted order. -/
theorem c9_amended (env : Env) (opts : Options) (paths : List String)
    (kord : List String → List String) (d : CheckerDict)
    (hkord : ∀ l : List String, List.Perm (kord l) l)
    (_hd : List.Perm d (noScmDict env opts paths))
    (recs : List ErrRecord) (flag : Bool)
    (hok : runCheckersOrd env kord d = Except.ok (recs, flag)) :
    List.Pairwise (fun a b => strLe a b = true)
      ((noScmSrcsToCheck (resolvePaths env opts
        (if paths.isEmpty then ["."] else paths))).map Prod.fst) ∧
    (∀ entry ∈ d, List.Perm (kord (assocKeys entry.2.2))
      (assocKeys entry.2.2)) ∧
    (∃ parts : List (List ErrRecord),
      invocationsRunOrd env kord d = Except.ok parts ∧
        recs = parts.flatten) := by
  refine ⟨?_, fun entry _ => hkord _,
    runCheckersOrd_invocations env kord d recs flag hok⟩
  rw [noScm_map_fst]
  exact pySorted_sorted _

theorem c9_amended_witness :
    List.Pairwise (fun a b => strLe a b = true)
      ((noScmSrcsToCheck (resolvePaths envC9 optsC8
        ["a.py", "b.py"])).map Prod.fst) ∧
    (∀ entry ∈ noScmDict envC9 optsC8 ["a.py", "b.py"],
      List.Perm (List.reverse (assocKeys entry.2.2)) (assocKeys entry.2.2)) ∧
    (∃ parts : List (List ErrRecord),
      invocationsRunOrd envC9 List.reverse
          (noScmDict envC9 optsC8 ["a.py", "b.py"]) = Except.ok parts ∧
      ([⟨"b.py", 2, some 1, "E002 other"⟩] : List ErrRecord) = parts.flatten) :=
  c9_amended envC9 optsC8 ["a.py", "b.py"] List.reverse
    (noScmDict envC9 optsC8 ["a.py", "b.py"])
    (fun l => List.reverse_perm l) (List.Perm.refl _)
    [⟨"b.py", 2, some 1, "E002 other"⟩] true (by decide)

end Codequality
